import Mathlib

/-!
Verification of the remote-path autocomplete logic of
`Copy to Server.workflow/Contents/copy_to_server.py` and of the
duplicate-filename handling of
`Add to Apple Music.workflow/Contents/add_to_music.py`.

Python strings are embedded as `List Char` (`PyStr`).  Each Python string
primitive used by the scripts (`str.strip`, `str.rstrip('/')`,
`str.startswith`, `str.endswith`, `str.split('\n')`, slicing, f-string
concatenation) is given its own definition below, and the relevant Python
functions are translated line by line on top of them.
-/

abbrev PyStr := List Char

/-- The whitespace characters removed by Python's `str.strip()`. -/
def isPySpace (c : Char) : Bool :=
  c = ' ' || c = '\t' || c = '\n' || c = '\r' || c = '\x0b' || c = '\x0c'

/-- Python `s.strip()`: drop whitespace from both ends. -/
def pyStrip (s : PyStr) : PyStr :=
  ((s.dropWhile isPySpace).reverse.dropWhile isPySpace).reverse

/-- Python `s.rstrip('/')`: drop every trailing `'/'`. -/
def pyRstripSlash (s : PyStr) : PyStr :=
  (s.reverse.dropWhile (fun c => c = '/')).reverse

/-- Python `s.startswith(t)`. -/
def pyStartswith (s t : PyStr) : Bool :=
  s.take t.length == t

/-- Python `s.endswith(t)`. -/
def pyEndswith (s t : PyStr) : Bool :=
  s.drop (s.length - t.length) == t

/-- Python `s.split('\n')`.  `[]` maps to `[[]]`, as in Python where
`''.split('\n') == ['']`. -/
def pySplitNl : PyStr → List PyStr
  | [] => [[]]
  | c :: rest =>
    match pySplitNl rest with
    | [] => [[c]]
    | l :: ls => if c = '\n' then [] :: l :: ls else (c :: l) :: ls

/-- Python truthiness of `self.remote_home` (`None` and `''` are falsy). -/
def homeTruthy : Option PyStr → Bool
  | none => false
  | some h => !h.isEmpty

/-- Number of trailing `'/'` characters of a path string. -/
def trailingSlashes (s : PyStr) : Nat :=
  (s.reverse.takeWhile (fun c => c = '/')).length

/-- Outcome of `subprocess.run` on the ssh command: either an exception was
raised (timeout, connection failure, ...) or the process completed with a
return code and captured stdout. -/
inductive SshOutcome where
  | raised
  | completed (returncode : Int) (stdout : PyStr)

/-- The command string built in `fetch_and_filter_paths` (copy_to_server.py,
lines 486-489):
`ls -1d {dir_path}{prefix}*/ 2>/dev/null | head -30`, the `{prefix}` part
present only when the prefix is non-empty. -/
def fetch_and_filter_cmd (dir_path pfx : PyStr) : PyStr :=
  if !pfx.isEmpty then
    "ls -1d ".data ++ dir_path ++ pfx ++ "*/ 2>/dev/null | head -30".data
  else
    "ls -1d ".data ++ dir_path ++ "*/ 2>/dev/null | head -30".data

/-- The command string built in `fetch_remote_paths` (copy_to_server.py,
line 566): `ls -1dp {remote_path}*/ 2>/dev/null | head -20`. -/
def fetch_remote_cmd (remote_path : PyStr) : PyStr :=
  "ls -1dp ".data ++ remote_path ++ "*/ 2>/dev/null | head -20".data

/-- The inner block of lines 510-511 of copy_to_server.py:
`if p.startswith(self.remote_home): p = '~' + p[len(self.remote_home):]`.
Reached only under a truthiness guard on `remote_home`, so the `none` arm is
arbitrary. -/
def tildeSubst (remote_home : Option PyStr) (p : PyStr) : PyStr :=
  match remote_home with
  | some h => if pyStartswith p h then '~' :: p.drop h.length else p
  | none => p

/-- Body of the per-line loop of `fetch_and_filter_paths`
(copy_to_server.py, lines 504-514): strip whitespace, strip all trailing
slashes, optionally replace the remote home prefix by `~`, keep the line
only if non-empty, re-appending one `/`. -/
def processLineFAF (using_tilde : Bool) (remote_home : Option PyStr)
    (line : PyStr) : Option PyStr :=
  let p := pyRstripSlash (pyStrip line)
  let p :=
    if using_tilde && !p.isEmpty && homeTruthy remote_home then
      tildeSubst remote_home p
    else p
  if !p.isEmpty then some (p ++ ['/']) else none

/-- Body of the per-line loop of `fetch_remote_paths` (copy_to_server.py,
lines 579-588); textually the prefix test is folded into the same `if` as
the truthiness tests, with the same meaning. -/
def processLineFRP (using_tilde : Bool) (remote_home : Option PyStr)
    (line : PyStr) : Option PyStr :=
  let p := pyRstripSlash (pyStrip line)
  let p :=
    match remote_home with
    | some h =>
      if using_tilde && !p.isEmpty && !h.isEmpty && pyStartswith p h then
        '~' :: p.drop h.length
      else p
    | none => p
  if !p.isEmpty then some (p ++ ['/']) else none

/-- Result of `fetch_and_filter_paths` (copy_to_server.py, lines 455-520),
as the value delivered to `update_and_show_dropdown`: `some paths` when the
ssh call succeeds with non-empty stdout and at least one line survives
filtering (line 517 guards the delivery with `if paths:`), `none` when
nothing is delivered (failure, non-zero exit, empty output, or all lines
filtered out; the `except` clause only logs). -/
def fetch_and_filter_paths (dest_var : PyStr) (remote_home : Option PyStr)
    (out : SshOutcome) : Option (List PyStr) :=
  let using_tilde := pyStartswith dest_var "~/".data
  match out with
  | .raised => none
  | .completed rc stdout =>
    if rc = 0 && !(pyStrip stdout).isEmpty then
      let paths := (pySplitNl (pyStrip stdout)).filterMap
        (processLineFAF using_tilde remote_home)
      if !paths.isEmpty then some paths else none
    else none

/-- Result of `fetch_remote_paths` (copy_to_server.py, lines 535-593), as
the value delivered to `update_destination_values`: unlike
`fetch_and_filter_paths` the delivery is not guarded by `if paths:`, so a
successful call always delivers (possibly an empty list). -/
def fetch_remote_paths (remote_path : PyStr) (remote_home : Option PyStr)
    (out : SshOutcome) : Option (List PyStr) :=
  let using_tilde := pyStartswith remote_path "~/".data
  match out with
  | .raised => none
  | .completed rc stdout =>
    if rc = 0 && !(pyStrip stdout).isEmpty then
      some ((pySplitNl (pyStrip stdout)).filterMap
        (processLineFRP using_tilde remote_home))
    else none

/-- The mutable dialog attributes touched by the completer
(`ServerCopyDialog`): the destination field text `dest_var`, the cached
remote home directory, the stored candidate list `destination_paths` and
the combobox option list `dest_combo['values']`. -/
structure DialogState where
  dest_var : PyStr
  remote_home : Option PyStr
  destination_paths : List PyStr
  combo_values : List PyStr
deriving DecidableEq

/-- `update_and_show_dropdown` (copy_to_server.py, lines 595-608): applies
the delivered list only when it is non-empty. -/
def update_and_show_dropdown (st : DialogState) (paths : List PyStr) :
    DialogState :=
  if !paths.isEmpty then
    { st with destination_paths := paths, combo_values := paths }
  else st

/-- `update_destination_values` (copy_to_server.py, lines 610-614): applies
the delivered list only when it is non-empty. -/
def update_destination_values (st : DialogState) (paths : List PyStr) :
    DialogState :=
  if !paths.isEmpty then
    { st with destination_paths := paths, combo_values := paths }
  else st

/-- One keystroke-triggered fetch round trip: `fetch_and_filter_paths`
followed by the delivery of its result (if any) to
`update_and_show_dropdown`. -/
def run_fetch_and_filter (st : DialogState) (out : SshOutcome) :
    DialogState :=
  match fetch_and_filter_paths st.dest_var st.remote_home out with
  | some paths => update_and_show_dropdown st paths
  | none => st

/-- One initial/selection fetch round trip: `fetch_remote_paths` followed by
the delivery of its result (if any) to `update_destination_values`. -/
def run_fetch_remote (st : DialogState) (remote_path : PyStr)
    (out : SshOutcome) : DialogState :=
  match fetch_remote_paths remote_path st.remote_home out with
  | some paths => update_destination_values st paths
  | none => st

/-- Per-element transformation of `apply_home_replacement_to_paths`
(copy_to_server.py, lines 621-635): strip trailing slashes, keep `~`-paths
as they are, otherwise replace a literal home prefix by `~`, re-append one
slash. -/
def applyHomeElem (h : PyStr) (p0 : PyStr) : PyStr :=
  let p := pyRstripSlash p0
  if pyStartswith p ['~'] then p ++ ['/']
  else if pyStartswith p h then ('~' :: p.drop h.length) ++ ['/']
  else p ++ ['/']

/-- `apply_home_replacement_to_paths` (copy_to_server.py, lines 616-645):
returns early unless the cached home is truthy and the stored list is
non-empty; otherwise rewrites the stored list, the combobox values and, when
applicable, the current field text. -/
def apply_home_replacement_to_paths (st : DialogState) : DialogState :=
  match st.remote_home with
  | none => st
  | some h =>
    if h.isEmpty || st.destination_paths.isEmpty then st
    else
      let updated_paths := st.destination_paths.map (applyHomeElem h)
      let current := st.dest_var
      let new_var :=
        if !current.isEmpty && !pyStartswith current ['~'] &&
            pyStartswith current h then
          '~' :: current.drop h.length
        else current
      { st with destination_paths := updated_paths,
                combo_values := updated_paths,
                dest_var := new_var }

/-! ### add_to_music.py: duplicate-filename handling -/

/-- Python `s.rfind(c)`: index of the last occurrence of `c`, or none. -/
def pyRfind (s : PyStr) (c : Char) : Option Nat :=
  match s.reverse.findIdx? (fun d => d = c) with
  | none => none
  | some j => some (s.length - 1 - j)

/-- `os.path.splitext` (posixpath) restricted to `'/'` as separator: split
at the last dot that comes after the last separator, unless every character
between them is a dot (leading-dot filenames have no extension). -/
def py_splitext (p : PyStr) : PyStr × PyStr :=
  let sepIndex : Int := match pyRfind p '/' with | none => -1 | some i => i
  let dotIndex : Int := match pyRfind p '.' with | none => -1 | some i => i
  if sepIndex < dotIndex then
    let start := (sepIndex + 1).toNat
    let d := dotIndex.toNat
    if ((p.drop start).take (d - start)).all (fun c => c = '.') then (p, [])
    else (p.take d, p.drop d)
  else (p, [])

/-- The f-string `f"{base}_{counter}{ext}"` from add_to_music.py line 434. -/
def counterName (base ext : PyStr) (counter : Nat) : PyStr :=
  base ++ '_' :: (Nat.repr counter).data ++ ext

/-- The `while os.path.exists(destination)` loop of `process_audio_file`
(add_to_music.py, lines 433-435), with the directory contents given as the
list `existing` and an explicit fuel bound standing in for the loop's
(finite-directory) termination. -/
def resolveDupLoop (existing : List PyStr) (base ext : PyStr)
    (counter : Nat) : Nat → PyStr
  | 0 => counterName base ext counter
  | fuel + 1 =>
    let destination := counterName base ext counter
    if destination ∈ existing then
      resolveDupLoop existing base ext (counter + 1) fuel
    else destination

/-- The destination filename chosen by `process_audio_file`
(add_to_music.py, lines 427-435): the original name when it is not taken,
otherwise `base_N ++ ext` for the first `N = 1, 2, ...` not taken.  Fuel
`existing.length + 1` suffices: the candidate names are pairwise distinct,
so one of the first `existing.length + 1` of them is free. -/
def process_audio_file_destination (existing : List PyStr)
    (filename : PyStr) : PyStr :=
  if filename ∈ existing then
    let be := py_splitext filename
    resolveDupLoop existing be.1 be.2 1 (existing.length + 1)
  else filename

/-- Decimal digit characters of a natural number, most significant first.
Reference definition used to reason about `Nat.repr`. -/
def decChars (n : Nat) : List Char :=
  if _h : n < 10 then [Nat.digitChar n]
  else decChars (n / 10) ++ [Nat.digitChar (n % 10)]
decreasing_by exact Nat.div_lt_self (by omega) (by omega)

/-! ### General helper lemmas -/

theorem head?_dropWhile_ne {α} {p : α → Bool} {l : List α} {c : α}
    (h : (l.dropWhile p).head? = some c) : p c = false := by
  have hx := List.head?_dropWhile_not p l
  rw [h] at hx
  exact hx

theorem getLast?_pyRstripSlash (s : PyStr) :
    (pyRstripSlash s).getLast? ≠ some '/' := by
  intro h
  unfold pyRstripSlash at h
  rw [List.getLast?_reverse] at h
  have := head?_dropWhile_ne h
  simp at this

theorem pyRstripSlash_of_getLast {s : PyStr} (hs : s.getLast? ≠ some '/') :
    pyRstripSlash s = s := by
  unfold pyRstripSlash
  cases hrev : s.reverse with
  | nil =>
    have : s = [] := by simpa using congrArg List.reverse hrev
    simp [this]
  | cons c t =>
    have hc : ¬ (c = '/') := by
      intro e
      exact hs (by rw [← List.head?_reverse, hrev, e]; rfl)
    rw [List.dropWhile_cons_of_neg (by simpa using hc), ← hrev,
      List.reverse_reverse]

theorem pyRstripSlash_append_slash {s : PyStr} (hs : s.getLast? ≠ some '/') :
    pyRstripSlash (s ++ ['/']) = s := by
  unfold pyRstripSlash
  rw [List.reverse_append]
  show (List.dropWhile _ ('/' :: s.reverse)).reverse = s
  rw [List.dropWhile_cons_of_pos (by simp)]
  exact pyRstripSlash_of_getLast hs

theorem pyRstripSlash_cons_of_ne {c : Char} (hc : c ≠ '/') (t : PyStr) :
    pyRstripSlash (c :: t) = c :: pyRstripSlash t := by
  unfold pyRstripSlash
  rw [show (c :: t).reverse = t.reverse ++ [c] from by simp]
  rw [List.dropWhile_append]
  split
  · next hemp =>
    rw [List.dropWhile_cons_of_neg (by simpa using hc)]
    have : t.reverse.dropWhile (fun c => decide (c = '/')) = [] := by
      simpa [List.isEmpty_iff] using hemp
    simp [this]
  · simp

theorem trailingSlashes_append_slash {p : PyStr}
    (hp : p.getLast? ≠ some '/') : trailingSlashes (p ++ ['/']) = 1 := by
  unfold trailingSlashes
  rw [List.reverse_append]
  show (List.takeWhile _ ('/' :: p.reverse)).length = 1
  rw [List.takeWhile_cons_of_pos (by simp)]
  cases hrev : p.reverse with
  | nil => simp
  | cons c t =>
    have hc : ¬ (c = '/') := by
      intro e
      exact hp (by rw [← List.head?_reverse, hrev, e]; rfl)
    rw [List.takeWhile_cons_of_neg (by simpa using hc)]
    rfl

theorem pyEndswith_append (a t : PyStr) : pyEndswith (a ++ t) t = true := by
  unfold pyEndswith
  rw [List.length_append, Nat.add_sub_cancel, List.drop_left]
  simp

theorem tildeSubst_getLast {home : Option PyStr} {p : PyStr}
    (hp : p.getLast? ≠ some '/') :
    (tildeSubst home p).getLast? ≠ some '/' := by
  cases home with
  | none => simpa [tildeSubst] using hp
  | some hh =>
    simp only [tildeSubst]
    split
    · intro hc
      cases hd : p.drop hh.length with
      | nil => rw [hd] at hc; simp at hc
      | cons x t =>
        rw [hd, List.getLast?_cons_cons, ← hd, List.getLast?_drop] at hc
        split at hc
        · simp at hc
        · exact hp hc
    · exact hp

theorem processLineFAF_shape {ut : Bool} {home : Option PyStr}
    {line q : PyStr} (h : processLineFAF ut home line = some q) :
    ∃ p, q = p ++ ['/'] ∧ p ≠ [] ∧ p.getLast? ≠ some '/' := by
  simp only [processLineFAF] at h
  split at h
  · split at h
    · next hne =>
      exact ⟨_, (Option.some.inj h).symm,
        by simpa using hne, tildeSubst_getLast (getLast?_pyRstripSlash _)⟩
    · exact absurd h (by simp)
  · split at h
    · next hne =>
      exact ⟨_, (Option.some.inj h).symm,
        by simpa using hne, getLast?_pyRstripSlash _⟩
    · exact absurd h (by simp)

theorem processLineFRP_eq (ut : Bool) (home : Option PyStr) (line : PyStr) :
    processLineFRP ut home line = processLineFAF ut home line := by
  simp only [processLineFRP, processLineFAF, tildeSubst, homeTruthy]
  cases home with
  | none => simp
  | some h =>
    cases ut <;>
      cases hp : (pyRstripSlash (pyStrip line)).isEmpty <;>
      cases hh : h.isEmpty <;>
      cases hs : pyStartswith (pyRstripSlash (pyStrip line)) h <;>
      simp [hp, hh, hs]

theorem processLineFRP_shape {ut : Bool} {home : Option PyStr}
    {line q : PyStr} (h : processLineFRP ut home line = some q) :
    ∃ p, q = p ++ ['/'] ∧ p ≠ [] ∧ p.getLast? ≠ some '/' :=
  processLineFAF_shape (by rw [← processLineFRP_eq]; exact h)

theorem mem_fetch_and_filter {dv : PyStr} {home : Option PyStr}
    {out : SshOutcome} {paths : List PyStr} {p : PyStr}
    (hf : fetch_and_filter_paths dv home out = some paths) (hp : p ∈ paths) :
    ∃ line, processLineFAF (pyStartswith dv "~/".data) home line = some p := by
  unfold fetch_and_filter_paths at hf
  cases out with
  | raised => exact absurd hf (by simp)
  | completed rc stdout =>
    simp only at hf
    split at hf
    · split at hf
      · obtain rfl := Option.some.inj hf
        obtain ⟨line, _, hline⟩ := List.mem_filterMap.mp hp
        exact ⟨line, hline⟩
      · exact absurd hf (by simp)
    · exact absurd hf (by simp)

theorem mem_fetch_remote {rp : PyStr} {home : Option PyStr}
    {out : SshOutcome} {paths : List PyStr} {p : PyStr}
    (hf : fetch_remote_paths rp home out = some paths) (hp : p ∈ paths) :
    ∃ line, processLineFRP (pyStartswith rp "~/".data) home line = some p := by
  unfold fetch_remote_paths at hf
  cases out with
  | raised => exact absurd hf (by simp)
  | completed rc stdout =>
    simp only at hf
    split at hf
    · obtain rfl := Option.some.inj hf
      obtain ⟨line, _, hline⟩ := List.mem_filterMap.mp hp
      exact ⟨line, hline⟩
    · exact absurd hf (by simp)

theorem applyHomeElem_shape (h p : PyStr) :
    ∃ r, applyHomeElem h p = r ++ ['/'] := by
  simp only [applyHomeElem]
  split
  · exact ⟨_, rfl⟩
  · split
    · exact ⟨_, rfl⟩
    · exact ⟨_, rfl⟩

theorem apply_home_dest {st : DialogState} {h : PyStr}
    (hh : st.remote_home = some h) (hne : h ≠ [])
    (hd : st.destination_paths ≠ []) :
    (apply_home_replacement_to_paths st).destination_paths
      = st.destination_paths.map (applyHomeElem h) := by
  unfold apply_home_replacement_to_paths
  rw [hh]
  simp only [List.isEmpty_eq_true]
  rw [if_neg (by simp [hne, hd])]

/-- C1: every candidate path in a list produced by `fetch_and_filter_paths`,
`fetch_remote_paths` or `apply_home_replacement_to_paths` and delivered to
the destination combobox is a non-empty string ending with `'/'`. -/
theorem c1_candidates_nonempty_end_slash :
    (∀ dv home out paths p, fetch_and_filter_paths dv home out = some paths →
      p ∈ paths → p ≠ [] ∧ pyEndswith p "/".data = true) ∧
    (∀ rp home out paths p, fetch_remote_paths rp home out = some paths →
      p ∈ paths → p ≠ [] ∧ pyEndswith p "/".data = true) ∧
    (∀ st h p, st.remote_home = some h → h ≠ [] →
      st.destination_paths ≠ [] →
      p ∈ (apply_home_replacement_to_paths st).destination_paths →
      p ≠ [] ∧ pyEndswith p "/".data = true) := by
  refine ⟨?_, ?_, ?_⟩
  · intro dv home out paths p hf hp
    obtain ⟨line, hline⟩ := mem_fetch_and_filter hf hp
    obtain ⟨r, rfl, _, _⟩ := processLineFAF_shape hline
    exact ⟨by simp, pyEndswith_append r _⟩
  · intro rp home out paths p hf hp
    obtain ⟨line, hline⟩ := mem_fetch_remote hf hp
    obtain ⟨r, rfl, _, _⟩ := processLineFRP_shape hline
    exact ⟨by simp, pyEndswith_append r _⟩
  · intro st h p hh hne hd hp
    rw [apply_home_dest hh hne hd] at hp
    obtain ⟨p0, _, rfl⟩ := List.mem_map.mp hp
    obtain ⟨r, hr⟩ := applyHomeElem_shape h p0
    rw [hr]
    exact ⟨by simp, pyEndswith_append r _⟩

theorem c1_candidates_nonempty_end_slash_witness :
    ("/tmp/a/".data ≠ [] ∧ pyEndswith "/tmp/a/".data "/".data = true) ∧
    ("/tmp/a/".data ≠ [] ∧ pyEndswith "/tmp/a/".data "/".data = true) ∧
    ("~/x/".data ≠ [] ∧ pyEndswith "~/x/".data "/".data = true) :=
  ⟨c1_candidates_nonempty_end_slash.1 "".data none
      (.completed 0 "/tmp/a/".data) ["/tmp/a/".data] "/tmp/a/".data
      (by decide) (by decide),
   c1_candidates_nonempty_end_slash.2.1 "".data none
      (.completed 0 "/tmp/a/".data) ["/tmp/a/".data] "/tmp/a/".data
      (by decide) (by decide),
   c1_candidates_nonempty_end_slash.2.2
      ⟨[], some "/h".data, ["/h/x/".data], []⟩ "/h".data "~/x/".data
      rfl (by decide) (by decide) (by decide)⟩

/-- C2: for every raw listing line with at least one trailing separator,
a candidate the normalization step produces has exactly one trailing
separator; in particular the raw line `"/tmp/x//"` normalizes to
`"/tmp/x/"`. -/
theorem c2_normalization_single_slash (ut : Bool) (home : Option PyStr)
    (line q : PyStr) (_hN : 1 ≤ trailingSlashes line) :
    (processLineFAF ut home line = some q → trailingSlashes q = 1) ∧
    (processLineFRP ut home line = some q → trailingSlashes q = 1) ∧
    processLineFAF false none "/tmp/x//".data = some "/tmp/x/".data := by
  refine ⟨?_, ?_, by decide⟩
  · intro h
    obtain ⟨r, rfl, _, hlast⟩ := processLineFAF_shape h
    exact trailingSlashes_append_slash hlast
  · intro h
    obtain ⟨r, rfl, _, hlast⟩ := processLineFRP_shape h
    exact trailingSlashes_append_slash hlast

theorem c2_normalization_single_slash_witness :
    1 ≤ trailingSlashes "/tmp/x//".data ∧
    ((processLineFAF false none "/tmp/x//".data = some "/tmp/x/".data →
        trailingSlashes "/tmp/x/".data = 1) ∧
      (processLineFRP false none "/tmp/x//".data = some "/tmp/x/".data →
        trailingSlashes "/tmp/x/".data = 1) ∧
      processLineFAF false none "/tmp/x//".data = some "/tmp/x/".data) :=
  ⟨by decide,
   c2_normalization_single_slash false none "/tmp/x//".data "/tmp/x/".data
     (by decide)⟩

theorem trailingSlashes_eq_one {line : PyStr} (h : trailingSlashes line = 1) :
    ∃ s, line = s ++ ['/'] ∧ s.getLast? ≠ some '/' := by
  unfold trailingSlashes at h
  cases hrev : line.reverse with
  | nil => rw [hrev] at h; simp at h
  | cons c t =>
    rw [hrev] at h
    by_cases hc : c = '/'
    · subst hc
      rw [List.takeWhile_cons_of_pos (by simp)] at h
      simp only [List.length_cons, Nat.add_eq, Nat.succ.injEq] at h
      have ht : t.takeWhile (fun c => decide (c = '/')) = [] :=
        List.length_eq_zero.mp (by omega)
      refine ⟨t.reverse, ?_, ?_⟩
      · have h2 := congrArg List.reverse hrev
        simpa using h2
      · rw [List.getLast?_reverse]
        cases t with
        | nil => simp
        | cons x t' =>
          intro hx
          simp only [List.head?_cons, Option.some.injEq] at hx
          rw [List.takeWhile_cons_of_pos (by simp [hx])] at ht
          simp at ht
    · rw [List.takeWhile_cons_of_neg (by simpa using hc)] at h
      simp at h

/-- C3: with cached home `H` and a home-relative query, a raw candidate
line that starts with `H` is rewritten to start with `'~'` and have length
`len(original) - len(H) + 1`; in particular the listing
`["/home/alice/docs/", "/home/alice/pics/"]` with `H = "/home/alice"`
yields `["~/docs/", "~/pics/"]`.  The hypotheses say that `H` is a
non-empty home-directory string without a trailing separator and that the
raw line is a clean listing line with exactly one trailing separator. -/
theorem c3_home_rewrite (H line : PyStr) (hH : H ≠ [])
    (hHs : H.getLast? ≠ some '/') (hclean : pyStrip line = line)
    (hone : trailingSlashes line = 1) (hpre : pyStartswith line H = true) :
    (processLineFAF true (some H) line
        = some ('~' :: line.drop H.length) ∧
      pyStartswith ('~' :: line.drop H.length) "~".data = true ∧
      ('~' :: line.drop H.length).length = line.length - H.length + 1) ∧
    fetch_and_filter_paths "~/".data (some "/home/alice".data)
        (.completed 0 "/home/alice/docs/\n/home/alice/pics/".data)
      = some ["~/docs/".data, "~/pics/".data] := by
  refine ⟨?_, by decide⟩
  obtain ⟨s, rfl, hs⟩ := trailingSlashes_eq_one hone
  have htake := beq_iff_eq.mp hpre
  have hlen : H.length ≤ (s ++ ['/']).length := by
    have h2 := congrArg List.length htake
    simp only [List.length_take] at h2
    omega
  have hne_len : H.length ≠ (s ++ ['/']).length := by
    intro e
    have hHline : H = s ++ ['/'] := by
      rw [e, List.take_length] at htake
      exact htake.symm
    rw [hHline] at hHs
    exact hHs (List.getLast?_concat s)
  have hHs' : H.length ≤ s.length := by
    simp only [List.length_append, List.length_singleton] at hlen hne_len
    omega
  have hpre_s : pyStartswith s H = true := by
    unfold pyStartswith
    rw [List.take_append_of_le_length hHs'] at htake
    exact beq_iff_eq.mpr htake
  have hp0 : pyRstripSlash (pyStrip (s ++ ['/'])) = s := by
    rw [hclean]; exact pyRstripSlash_append_slash hs
  have hsne : s ≠ [] := by
    intro e
    apply hH
    apply List.length_eq_zero.mp
    subst e
    simpa using hHs'
  have hdrop : (s ++ ['/']).drop H.length = s.drop H.length ++ ['/'] :=
    List.drop_append_of_le_length hHs'
  refine ⟨?_, ?_, ?_⟩
  · simp only [processLineFAF, hp0]
    have hcond : (true && !s.isEmpty && homeTruthy (some H)) = true := by
      simp [homeTruthy, hsne, hH]
    rw [if_pos hcond]
    simp only [tildeSubst]
    rw [if_pos hpre_s, hdrop]
    simp
  · rw [hdrop]
    simp [pyStartswith]
  · rw [hdrop]
    simp only [List.length_cons, List.length_append, List.length_drop,
      List.length_singleton]
    omega

theorem c3_home_rewrite_witness :
    ((processLineFAF true (some "/home/alice".data) "/home/alice/docs/".data
        = some ('~' ::
            "/home/alice/docs/".data.drop "/home/alice".data.length) ∧
      pyStartswith
        ('~' :: "/home/alice/docs/".data.drop "/home/alice".data.length)
        "~".data = true ∧
      ('~' :: "/home/alice/docs/".data.drop
          "/home/alice".data.length).length
        = "/home/alice/docs/".data.length - "/home/alice".data.length + 1) ∧
    fetch_and_filter_paths "~/".data (some "/home/alice".data)
        (.completed 0 "/home/alice/docs/\n/home/alice/pics/".data)
      = some ["~/docs/".data, "~/pics/".data]) :=
  c3_home_rewrite "/home/alice".data "/home/alice/docs/".data
    (by decide) (by decide) (by decide) (by decide) (by decide)

/-! ### Failure cases of the two fetch operations -/

theorem fetch_and_filter_raised (dv : PyStr) (home : Option PyStr) :
    fetch_and_filter_paths dv home .raised = none := rfl

theorem fetch_and_filter_rc_ne {rc : Int} (dv : PyStr) (home : Option PyStr)
    (out : PyStr) (h : rc ≠ 0) :
    fetch_and_filter_paths dv home (.completed rc out) = none := by
  simp [fetch_and_filter_paths, h]

theorem fetch_and_filter_empty_out (dv : PyStr) (home : Option PyStr)
    (rc : Int) {out : PyStr} (h : pyStrip out = []) :
    fetch_and_filter_paths dv home (.completed rc out) = none := by
  simp [fetch_and_filter_paths, h]

theorem fetch_and_filter_no_survivors (dv : PyStr) (home : Option PyStr)
    (rc : Int) {out : PyStr}
    (h : (pySplitNl (pyStrip out)).filterMap
      (processLineFAF (pyStartswith dv "~/".data) home) = []) :
    fetch_and_filter_paths dv home (.completed rc out) = none := by
  simp only [fetch_and_filter_paths]
  split
  · rw [h]
    simp
  · rfl

theorem fetch_remote_raised (rp : PyStr) (home : Option PyStr) :
    fetch_remote_paths rp home .raised = none := rfl

theorem fetch_remote_rc_ne {rc : Int} (rp : PyStr) (home : Option PyStr)
    (out : PyStr) (h : rc ≠ 0) :
    fetch_remote_paths rp home (.completed rc out) = none := by
  simp [fetch_remote_paths, h]

theorem fetch_remote_empty_out (rp : PyStr) (home : Option PyStr)
    (rc : Int) {out : PyStr} (h : pyStrip out = []) :
    fetch_remote_paths rp home (.completed rc out) = none := by
  simp [fetch_remote_paths, h]

/-- C6: every failure of the remote listing call (exception — timeout or
connection failure —, non-zero exit status, empty output) makes the
completer deliver nothing to the caller; both functions are total, so no
exception escapes them (the Python `except` clause only logs). -/
theorem c6_failures_swallowed :
    (∀ dv home, fetch_and_filter_paths dv home .raised = none) ∧
    (∀ dv home (rc : Int) out, rc ≠ 0 →
      fetch_and_filter_paths dv home (.completed rc out) = none) ∧
    (∀ dv home (rc : Int) out, pyStrip out = [] →
      fetch_and_filter_paths dv home (.completed rc out) = none) ∧
    (∀ rp home, fetch_remote_paths rp home .raised = none) ∧
    (∀ rp home (rc : Int) out, rc ≠ 0 →
      fetch_remote_paths rp home (.completed rc out) = none) ∧
    (∀ rp home (rc : Int) out, pyStrip out = [] →
      fetch_remote_paths rp home (.completed rc out) = none) :=
  ⟨fetch_and_filter_raised,
   fun dv home _ out h => fetch_and_filter_rc_ne dv home out h,
   fun dv home rc _ h => fetch_and_filter_empty_out dv home rc h,
   fetch_remote_raised,
   fun rp home _ out h => fetch_remote_rc_ne rp home out h,
   fun rp home rc _ h => fetch_remote_empty_out rp home rc h⟩

theorem c6_failures_swallowed_witness :
    fetch_and_filter_paths [] none .raised = none ∧
    fetch_and_filter_paths [] none (.completed 1 "x".data) = none ∧
    fetch_and_filter_paths [] none (.completed 0 "  ".data) = none ∧
    fetch_remote_paths [] none .raised = none ∧
    fetch_remote_paths [] none (.completed 1 "x".data) = none ∧
    fetch_remote_paths [] none (.completed 0 "  ".data) = none :=
  ⟨c6_failures_swallowed.1 [] none,
   c6_failures_swallowed.2.1 [] none 1 "x".data (by decide),
   c6_failures_swallowed.2.2.1 [] none 0 "  ".data (by decide),
   c6_failures_swallowed.2.2.2.1 [] none,
   c6_failures_swallowed.2.2.2.2.1 [] none 1 "x".data (by decide),
   c6_failures_swallowed.2.2.2.2.2 [] none 0 "  ".data (by decide)⟩

/-- C5: with an empty home-directory cache no rewriting occurs: each
surviving candidate is the raw line with trailing separators normalized to
exactly one, and `apply_home_replacement_to_paths` leaves the dialog state
untouched. -/
theorem c5_empty_cache_no_rewrite :
    (∀ (ut : Bool) (line : PyStr), processLineFAF ut none line =
      (if !(pyRstripSlash (pyStrip line)).isEmpty then
        some (pyRstripSlash (pyStrip line) ++ ['/']) else none)) ∧
    (∀ (ut : Bool) (line : PyStr), processLineFRP ut none line =
      (if !(pyRstripSlash (pyStrip line)).isEmpty then
        some (pyRstripSlash (pyStrip line) ++ ['/']) else none)) ∧
    (∀ st : DialogState, st.remote_home = none →
      apply_home_replacement_to_paths st = st) := by
  refine ⟨?_, ?_, ?_⟩
  · intro ut line
    simp [processLineFAF, homeTruthy]
  · intro ut line
    simp [processLineFRP]
  · intro st h
    unfold apply_home_replacement_to_paths
    rw [h]

theorem c5_empty_cache_no_rewrite_witness :
    (processLineFAF true none "/home/alice/docs/".data =
      (if !(pyRstripSlash (pyStrip "/home/alice/docs/".data)).isEmpty then
        some (pyRstripSlash (pyStrip "/home/alice/docs/".data) ++ ['/'])
      else none)) ∧
    (processLineFRP true none "/home/alice/docs/".data =
      (if !(pyRstripSlash (pyStrip "/home/alice/docs/".data)).isEmpty then
        some (pyRstripSlash (pyStrip "/home/alice/docs/".data) ++ ['/'])
      else none)) ∧
    apply_home_replacement_to_paths
        (DialogState.mk "~/".data none ["~/".data] ["~/".data])
      = DialogState.mk "~/".data none ["~/".data] ["~/".data] :=
  ⟨c5_empty_cache_no_rewrite.1 true "/home/alice/docs/".data,
   c5_empty_cache_no_rewrite.2.1 true "/home/alice/docs/".data,
   c5_empty_cache_no_rewrite.2.2
     (DialogState.mk "~/".data none ["~/".data] ["~/".data]) rfl⟩

/-- C9: a listing round trip that fails, exits non-zero, produces empty
output, or leaves no surviving candidate lines, leaves `destination_paths`
and the combobox values exactly as they were; `update_and_show_dropdown`
and `update_destination_values` apply a delivered list only when it is
non-empty. -/
theorem c9_failed_query_preserves_state :
    (∀ st : DialogState, run_fetch_and_filter st .raised = st) ∧
    (∀ (st : DialogState) (rc : Int) out, rc ≠ 0 →
      run_fetch_and_filter st (.completed rc out) = st) ∧
    (∀ (st : DialogState) (rc : Int) out, pyStrip out = [] →
      run_fetch_and_filter st (.completed rc out) = st) ∧
    (∀ (st : DialogState) (rc : Int) out,
      (pySplitNl (pyStrip out)).filterMap
        (processLineFAF (pyStartswith st.dest_var "~/".data)
          st.remote_home) = [] →
      run_fetch_and_filter st (.completed rc out) = st) ∧
    (∀ st : DialogState, update_and_show_dropdown st [] = st ∧
      update_destination_values st [] = st) ∧
    (∀ (st : DialogState) rp, run_fetch_remote st rp .raised = st) ∧
    (∀ (st : DialogState) rp (rc : Int) out, rc ≠ 0 →
      run_fetch_remote st rp (.completed rc out) = st) ∧
    (∀ (st : DialogState) rp (rc : Int) out, pyStrip out = [] →
      run_fetch_remote st rp (.completed rc out) = st) ∧
    (∀ (st : DialogState) rp (rc : Int) out,
      (pySplitNl (pyStrip out)).filterMap
        (processLineFRP (pyStartswith rp "~/".data) st.remote_home) = [] →
      run_fetch_remote st rp (.completed rc out) = st) := by
  refine ⟨?_, ?_, ?_, ?_, ?_, ?_, ?_, ?_, ?_⟩
  · intro st
    rfl
  · intro st rc out h
    unfold run_fetch_and_filter
    rw [fetch_and_filter_rc_ne st.dest_var st.remote_home out h]
  · intro st rc out h
    unfold run_fetch_and_filter
    rw [fetch_and_filter_empty_out st.dest_var st.remote_home rc h]
  · intro st rc out h
    unfold run_fetch_and_filter
    rw [fetch_and_filter_no_survivors st.dest_var st.remote_home rc h]
  · intro st
    exact ⟨rfl, rfl⟩
  · intro st rp
    rfl
  · intro st rp rc out h
    unfold run_fetch_remote
    rw [fetch_remote_rc_ne rp st.remote_home out h]
  · intro st rp rc out h
    unfold run_fetch_remote
    rw [fetch_remote_empty_out rp st.remote_home rc h]
  · intro st rp rc out h
    unfold run_fetch_remote
    by_cases hc : (decide (rc = 0) && !List.isEmpty (pyStrip out)) = true
    · have hf : fetch_remote_paths rp st.remote_home (.completed rc out)
          = some [] := by
        show (if (decide (rc = 0) && !List.isEmpty (pyStrip out)) = true then
          some (List.filterMap
            (processLineFRP (pyStartswith rp "~/".data) st.remote_home)
            (pySplitNl (pyStrip out))) else none) = some []
        rw [if_pos hc, h]
      rw [hf]
      rfl
    · have hf : fetch_remote_paths rp st.remote_home (.completed rc out)
          = none := by
        show (if (decide (rc = 0) && !List.isEmpty (pyStrip out)) = true then
          some (List.filterMap
            (processLineFRP (pyStartswith rp "~/".data) st.remote_home)
            (pySplitNl (pyStrip out))) else none) = none
        rw [if_neg hc]
      rw [hf]

theorem c9_failed_query_preserves_state_witness :
    run_fetch_and_filter (DialogState.mk "/t".data none ["/a/".data] ["/a/".data])
        .raised
      = DialogState.mk "/t".data none ["/a/".data] ["/a/".data] ∧
    run_fetch_and_filter (DialogState.mk "/t".data none ["/a/".data] ["/a/".data])
        (.completed 1 "/b/".data)
      = DialogState.mk "/t".data none ["/a/".data] ["/a/".data] ∧
    run_fetch_and_filter (DialogState.mk "/t".data none ["/a/".data] ["/a/".data])
        (.completed 0 " ".data)
      = DialogState.mk "/t".data none ["/a/".data] ["/a/".data] ∧
    run_fetch_and_filter (DialogState.mk "/t".data none ["/a/".data] ["/a/".data])
        (.completed 0 "///".data)
      = DialogState.mk "/t".data none ["/a/".data] ["/a/".data] ∧
    (update_and_show_dropdown
        (DialogState.mk "/t".data none ["/a/".data] ["/a/".data]) []
      = DialogState.mk "/t".data none ["/a/".data] ["/a/".data] ∧
     update_destination_values
        (DialogState.mk "/t".data none ["/a/".data] ["/a/".data]) []
      = DialogState.mk "/t".data none ["/a/".data] ["/a/".data]) ∧
    run_fetch_remote (DialogState.mk "/t".data none ["/a/".data] ["/a/".data])
        "~/".data .raised
      = DialogState.mk "/t".data none ["/a/".data] ["/a/".data] ∧
    run_fetch_remote (DialogState.mk "/t".data none ["/a/".data] ["/a/".data])
        "~/".data (.completed 1 "/b/".data)
      = DialogState.mk "/t".data none ["/a/".data] ["/a/".data] ∧
    run_fetch_remote (DialogState.mk "/t".data none ["/a/".data] ["/a/".data])
        "~/".data (.completed 0 " ".data)
      = DialogState.mk "/t".data none ["/a/".data] ["/a/".data] ∧
    run_fetch_remote (DialogState.mk "/t".data none ["/a/".data] ["/a/".data])
        "~/".data (.completed 0 "///".data)
      = DialogState.mk "/t".data none ["/a/".data] ["/a/".data] :=
  ⟨c9_failed_query_preserves_state.1 _,
   c9_failed_query_preserves_state.2.1 _ 1 "/b/".data (by decide),
   c9_failed_query_preserves_state.2.2.1 _ 0 " ".data (by decide),
   c9_failed_query_preserves_state.2.2.2.1 _ 0 "///".data (by decide),
   c9_failed_query_preserves_state.2.2.2.2.1 _,
   c9_failed_query_preserves_state.2.2.2.2.2.1 _ "~/".data,
   c9_failed_query_preserves_state.2.2.2.2.2.2.1 _ "~/".data 1 "/b/".data
     (by decide),
   c9_failed_query_preserves_state.2.2.2.2.2.2.2.1 _ "~/".data 0 " ".data
     (by decide),
   c9_failed_query_preserves_state.2.2.2.2.2.2.2.2 _ "~/".data 0 "///".data
     (by decide)⟩

/-- C8: every listing command is capped: the command built by
`fetch_and_filter_paths` ends with `| head -30` and the one built by
`fetch_remote_paths` ends with `| head -20`, so no request asks for more
than 30 directory entries. -/
theorem c8_commands_capped :
    (∀ dir_path pfx, pyEndswith (fetch_and_filter_cmd dir_path pfx)
      "| head -30".data = true) ∧
    (∀ remote_path, pyEndswith (fetch_remote_cmd remote_path)
      "| head -20".data = true) ∧ (20 : Nat) ≤ 30 := by
  refine ⟨?_, ?_, by omega⟩
  · intro d p
    unfold fetch_and_filter_cmd
    have hsplit : ("*/ 2>/dev/null | head -30".data : PyStr)
        = "*/ 2>/dev/null ".data ++ "| head -30".data := by decide
    split
    · rw [hsplit, ← List.append_assoc]
      exact pyEndswith_append _ _
    · rw [hsplit, ← List.append_assoc]
      exact pyEndswith_append _ _
  · intro r
    unfold fetch_remote_cmd
    have hsplit : ("*/ 2>/dev/null | head -20".data : PyStr)
        = "*/ 2>/dev/null ".data ++ "| head -20".data := by decide
    rw [hsplit, ← List.append_assoc]
    exact pyEndswith_append _ _

theorem startswith_tilde_cons {p : PyStr}
    (h : pyStartswith p "~".data = true) : ∃ t, p = '~' :: t := by
  cases p with
  | nil => exact absurd h (by decide)
  | cons c t =>
    unfold pyStartswith at h
    have h2 := beq_iff_eq.mp h
    have h3 : ([c] : PyStr) = ['~'] := h2
    exact ⟨t, by rw [List.cons.inj h3 |>.1]⟩

/-- C4 fails on the code.  First, `apply_home_replacement_to_paths`
rewrites a stored absolute candidate into `~`-form although the query text
(`dest_var = "/home/"`) does not begin with `~/`.  Second, in the per-line
processing a candidate that already begins with `~` is not left unchanged
when the cached home directory itself begins with `~`: with home `"~/d"`
the candidate line `"~/docs/"` becomes `"~ocs/"`, which differs from its
mere separator normalization. -/
theorem c4_counterexample :
    pyStartswith (DialogState.mk "/home/".data (some "/home/alice".data)
        ["/home/alice/docs/".data] ["/home/alice/docs/".data]).dest_var
      "~/".data = false ∧
    (apply_home_replacement_to_paths
        (DialogState.mk "/home/".data (some "/home/alice".data)
          ["/home/alice/docs/".data]
          ["/home/alice/docs/".data])).destination_paths
      = ["~/docs/".data] ∧
    processLineFAF true (some "~/d".data) "~/docs/".data
      = some "~ocs/".data ∧
    "~ocs/".data ≠ pyRstripSlash "~/docs/".data ++ ['/'] := by decide

/-- C4 amended: in `fetch_and_filter_paths` and `fetch_remote_paths`
home-shorthand rewriting happens only when the query began with `~/` (a
non-`~/` query behaves exactly as with an empty cache);
`apply_home_replacement_to_paths`, by contrast, rewrites the stored
candidates whenever the cached home is set, regardless of the query text;
a candidate already beginning with `~` is left unchanged apart from
separator normalization by `apply_home_replacement_to_paths`
unconditionally, and by the per-line fetch processing provided the cached
home directory starts with `'/'`. -/
theorem c4_amended_rewrite_scope :
    (∀ dv home out, pyStartswith dv "~/".data = false →
      fetch_and_filter_paths dv home out
        = fetch_and_filter_paths dv none out) ∧
    (∀ rp home out, pyStartswith rp "~/".data = false →
      fetch_remote_paths rp home out = fetch_remote_paths rp none out) ∧
    (∀ dv dv' (home : Option PyStr) dps cvs,
      (apply_home_replacement_to_paths
        (DialogState.mk dv home dps cvs)).destination_paths
      = (apply_home_replacement_to_paths
        (DialogState.mk dv' home dps cvs)).destination_paths) ∧
    (∀ h dps cvs dv, h ≠ [] → dps ≠ [] →
      (apply_home_replacement_to_paths
        (DialogState.mk dv (some h) dps cvs)).destination_paths
      = dps.map (applyHomeElem h)) ∧
    (∀ h p, pyStartswith p "~".data = true →
      applyHomeElem h p = pyRstripSlash p ++ ['/']) ∧
    (∀ (h line : PyStr) (ut : Bool), h.head? = some '/' →
      pyStartswith (pyRstripSlash (pyStrip line)) "~".data = true →
      processLineFAF ut (some h) line = processLineFAF ut none line) := by
  have hline : ∀ (home : Option PyStr) (line : PyStr),
      processLineFAF false home line = processLineFAF false none line := by
    intro home line
    simp [processLineFAF]
  have hlineR : ∀ (home : Option PyStr) (line : PyStr),
      processLineFRP false home line = processLineFRP false none line := by
    intro home line
    cases home with
    | none => rfl
    | some hh => simp [processLineFRP]
  refine ⟨?_, ?_, ?_, ?_, ?_, ?_⟩
  · intro dv home out h
    have hfun : processLineFAF false home = processLineFAF false none :=
      funext fun line => hline home line
    simp only [fetch_and_filter_paths, h, hfun]
  · intro rp home out h
    have hfun : processLineFRP false home = processLineFRP false none :=
      funext fun line => hlineR home line
    simp only [fetch_remote_paths, h, hfun]
  · intro dv dv' home dps cvs
    cases home with
    | none => rfl
    | some hh =>
      simp only [apply_home_replacement_to_paths]
      split <;> rfl
  · intro h dps cvs dv hne hd
    exact apply_home_dest rfl hne hd
  · intro h p hp
    obtain ⟨t, rfl⟩ := startswith_tilde_cons hp
    unfold applyHomeElem
    rw [pyRstripSlash_cons_of_ne (by decide) t]
    rw [if_pos (by simp [pyStartswith])]
  · intro h line ut hh ht
    obtain ⟨t, hpt⟩ := startswith_tilde_cons ht
    have hfalse : pyStartswith (pyRstripSlash (pyStrip line)) h = false := by
      rw [hpt]
      cases h with
      | nil => simp at hh
      | cons hc ht' =>
        have hc' : hc = '/' := by simpa using hh
        subst hc'
        unfold pyStartswith
        simp only [List.length_cons, List.take_succ_cons]
        rw [beq_eq_false_iff_ne]
        intro e
        exact absurd (List.cons.inj e).1 (by decide)
    simp [processLineFAF, tildeSubst, hfalse, homeTruthy]

theorem c4_amended_rewrite_scope_witness :
    fetch_and_filter_paths "/x".data (some "/h".data)
        (.completed 0 "/h/a/".data)
      = fetch_and_filter_paths "/x".data none (.completed 0 "/h/a/".data) ∧
    fetch_remote_paths "/x".data (some "/h".data)
        (.completed 0 "/h/a/".data)
      = fetch_remote_paths "/x".data none (.completed 0 "/h/a/".data) ∧
    (apply_home_replacement_to_paths
        (DialogState.mk "a".data none ["/p/".data] [])).destination_paths
      = (apply_home_replacement_to_paths
        (DialogState.mk "b".data none ["/p/".data] [])).destination_paths ∧
    (apply_home_replacement_to_paths
        (DialogState.mk "/q".data (some "/h".data) ["/h/x/".data]
          [])).destination_paths
      = ["/h/x/".data].map (applyHomeElem "/h".data) ∧
    applyHomeElem "/h".data "~/x/".data
      = pyRstripSlash "~/x/".data ++ ['/'] ∧
    processLineFAF true (some "/h".data) "~/x/".data
      = processLineFAF true none "~/x/".data :=
  ⟨c4_amended_rewrite_scope.1 "/x".data (some "/h".data)
      (.completed 0 "/h/a/".data) (by decide),
   c4_amended_rewrite_scope.2.1 "/x".data (some "/h".data)
      (.completed 0 "/h/a/".data) (by decide),
   c4_amended_rewrite_scope.2.2.1 "a".data "b".data none ["/p/".data] [],
   c4_amended_rewrite_scope.2.2.2.1 "/h".data ["/h/x/".data] [] "/q".data
      (by decide) (by decide),
   c4_amended_rewrite_scope.2.2.2.2.1 "/h".data "~/x/".data (by decide),
   c4_amended_rewrite_scope.2.2.2.2.2 "/h".data "~/x/".data true
      (by decide) (by decide)⟩

theorem pySplitNl_ne_nil (l : PyStr) : pySplitNl l ≠ [] := by
  cases l with
  | nil => simp [pySplitNl]
  | cons c rest =>
    simp only [pySplitNl]
    split
    · simp
    · split <;> simp

theorem pySplitNl_no_nl {l : PyStr} (h : '\n' ∉ l) : pySplitNl l = [l] := by
  induction l with
  | nil => rfl
  | cons c rest ih =>
    have hc : c ≠ '\n' := fun e => h (by rw [e]; exact List.mem_cons_self _ _)
    have hr : '\n' ∉ rest := fun e => h (List.mem_cons_of_mem _ e)
    simp only [pySplitNl, ih hr]
    rw [if_neg hc]

theorem pySplitNl_append {l1 : PyStr} (l2 : PyStr) (h : '\n' ∉ l1) :
    pySplitNl (l1 ++ '\n' :: l2) = l1 :: pySplitNl l2 := by
  induction l1 with
  | nil =>
    simp only [List.nil_append, pySplitNl]
    cases hs : pySplitNl l2 with
    | nil => exact absurd hs (pySplitNl_ne_nil l2)
    | cons x xs => simp
  | cons c rest ih =>
    have hc : c ≠ '\n' := fun e => h (by rw [e]; exact List.mem_cons_self _ _)
    have hr : '\n' ∉ rest := fun e => h (List.mem_cons_of_mem _ e)
    simp only [List.cons_append, pySplitNl]
    have ih' : pySplitNl (rest.append ('\n' :: l2)) = rest :: pySplitNl l2 :=
      ih hr
    rw [ih']
    dsimp only
    rw [if_neg hc]

/-- C7 fails on the code: no deduplication is performed.  For the remote
listing output `"/tmp/x/\n/tmp/x//"` — two distinct raw lines that
normalize to the same candidate — the completer delivers the candidate
list `["/tmp/x/", "/tmp/x/"]`, which contains two equal path strings. -/
theorem c7_counterexample :
    fetch_and_filter_paths "".data none
        (.completed 0 "/tmp/x/\n/tmp/x//".data)
      = some ["/tmp/x/".data, "/tmp/x/".data] ∧
    ¬ List.Nodup ["/tmp/x/".data, "/tmp/x/".data] := by
  constructor
  · decide
  · intro h
    exact (List.nodup_cons.mp h).1 (List.mem_singleton.mpr rfl)

/-- C7 amended: the candidate list is the order-preserving normalization of
the surviving raw lines with no deduplication: whenever a listing output
consists of two lines that both normalize to the same candidate `q`, the
delivered list is `[q, q]`, which is not duplicate-free. -/
theorem c7_amended_no_dedup (dv : PyStr) (home : Option PyStr)
    (l1 l2 q : PyStr) (h1 : '\n' ∉ l1) (h2 : '\n' ∉ l2)
    (hclean : pyStrip (l1 ++ '\n' :: l2) = l1 ++ '\n' :: l2)
    (hq1 : processLineFAF (pyStartswith dv "~/".data) home l1 = some q)
    (hq2 : processLineFAF (pyStartswith dv "~/".data) home l2 = some q) :
    fetch_and_filter_paths dv home (.completed 0 (l1 ++ '\n' :: l2))
      = some [q, q] ∧ ¬ List.Nodup [q, q] := by
  constructor
  · show (if (decide ((0 : Int) = 0) &&
        !List.isEmpty (pyStrip (l1 ++ '\n' :: l2))) = true then
      let paths := (pySplitNl (pyStrip (l1 ++ '\n' :: l2))).filterMap
        (processLineFAF (pyStartswith dv "~/".data) home)
      if !paths.isEmpty then some paths else none
      else none) = some [q, q]
    rw [hclean]
    have hcond : (decide ((0 : Int) = 0) &&
        !List.isEmpty (l1 ++ '\n' :: l2)) = true := by
      simp [List.isEmpty_iff]
    rw [if_pos hcond]
    have hsplit : pySplitNl (l1 ++ '\n' :: l2) = l1 :: pySplitNl l2 :=
      pySplitNl_append l2 h1
    rw [hsplit, pySplitNl_no_nl h2]
    simp only [List.filterMap_cons, hq1, hq2, List.filterMap_nil]
    rfl
  · intro h
    exact (List.nodup_cons.mp h).1 (List.mem_singleton.mpr rfl)

theorem c7_amended_no_dedup_witness :
    '\n' ∉ "/tmp/x/".data ∧ '\n' ∉ "/tmp/x//".data ∧
    (fetch_and_filter_paths "".data none
        (.completed 0 ("/tmp/x/".data ++ '\n' :: "/tmp/x//".data))
      = some ["/tmp/x/".data, "/tmp/x/".data] ∧
    ¬ List.Nodup ["/tmp/x/".data, "/tmp/x/".data]) :=
  ⟨by decide, by decide,
   c7_amended_no_dedup "".data none "/tmp/x/".data "/tmp/x//".data
     "/tmp/x/".data (by decide) (by decide) (by decide) (by decide)
     (by decide)⟩

/-! ### Nat.repr and the duplicate-rename loop -/

theorem decChars_lt {n : Nat} (h : n < 10) :
    decChars n = [Nat.digitChar n] := by
  unfold decChars
  rw [dif_pos h]

theorem decChars_ge {n : Nat} (h : ¬ n < 10) :
    decChars n = decChars (n / 10) ++ [Nat.digitChar (n % 10)] := by
  conv_lhs => unfold decChars
  rw [dif_neg h]

theorem decChars_ne_nil (n : Nat) : decChars n ≠ [] := by
  by_cases h : n < 10
  · rw [decChars_lt h]; simp
  · rw [decChars_ge h]; simp

theorem digitChar_inj_lt {m n : Nat} (hm : m < 10) (hn : n < 10)
    (h : Nat.digitChar m = Nat.digitChar n) : m = n := by
  have hfin : ∀ (a b : Fin 10),
      Nat.digitChar a.val = Nat.digitChar b.val → a = b := by decide
  have h2 := hfin ⟨m, hm⟩ ⟨n, hn⟩ h
  exact congrArg Fin.val h2

theorem toDigitsCore_eq_decChars :
    ∀ (fuel n : Nat) (ds : List Char), n < fuel →
      Nat.toDigitsCore 10 fuel n ds = decChars n ++ ds := by
  intro fuel
  induction fuel with
  | zero => intro n ds h; omega
  | succ f ih =>
    intro n ds h
    simp only [Nat.toDigitsCore]
    by_cases h0 : n / 10 = 0
    · have hn : n < 10 := by omega
      rw [if_pos h0, decChars_lt hn]
      have hmod : n % 10 = n := Nat.mod_eq_of_lt hn
      rw [hmod]
      rfl
    · have hn : ¬ n < 10 := by
        intro hlt
        exact h0 (Nat.div_eq_of_lt hlt)
      rw [if_neg h0]
      have hdiv : n / 10 < f := by
        have h1 : 0 < n := by omega
        have h2 := Nat.div_lt_self h1 (by omega : (1 : Nat) < 10)
        omega
      rw [ih (n / 10) (Nat.digitChar (n % 10) :: ds) hdiv, decChars_ge hn]
      simp

theorem decChars_injective (m : Nat) :
    ∀ n, decChars m = decChars n → m = n := by
  induction m using Nat.strong_induction_on with
  | _ m ih =>
    intro n h
    by_cases hm : m < 10 <;> by_cases hn : n < 10
    · rw [decChars_lt hm, decChars_lt hn] at h
      exact digitChar_inj_lt hm hn (List.cons.inj h).1
    · exfalso
      rw [decChars_lt hm, decChars_ge hn] at h
      have hlen := congrArg List.length h
      simp only [List.length_singleton, List.length_append,
        List.length_cons, List.length_nil] at hlen
      exact decChars_ne_nil (n / 10) (List.length_eq_zero.mp (by omega))
    · exfalso
      rw [decChars_ge hm, decChars_lt hn] at h
      have hlen := congrArg List.length h
      simp only [List.length_singleton, List.length_append,
        List.length_cons, List.length_nil] at hlen
      exact decChars_ne_nil (m / 10) (List.length_eq_zero.mp (by omega))
    · rw [decChars_ge hm, decChars_ge hn] at h
      have h2 := congrArg List.reverse h
      simp only [List.reverse_append, List.reverse_cons, List.reverse_nil,
        List.nil_append, List.singleton_append] at h2
      obtain ⟨he, ht⟩ := List.cons.inj h2
      have e1 : m % 10 = n % 10 :=
        digitChar_inj_lt (Nat.mod_lt _ (by omega)) (Nat.mod_lt _ (by omega))
          he
      have e2 : m / 10 = n / 10 := by
        refine ih (m / 10) ?_ (n / 10) ?_
        · exact Nat.div_lt_self (by omega) (by omega)
        · have h3 := congrArg List.reverse ht
          simpa using h3
      omega

theorem nat_repr_injective {m n : Nat} (h : Nat.repr m = Nat.repr n) :
    m = n := by
  have h1 : Nat.toDigits 10 m = Nat.toDigits 10 n := congrArg String.data h
  rw [Nat.toDigits, Nat.toDigits,
    toDigitsCore_eq_decChars (m + 1) m [] (by omega),
    toDigitsCore_eq_decChars (n + 1) n [] (by omega)] at h1
  simp only [List.append_nil] at h1
  exact decChars_injective m n h1

theorem counterName_injective {b e : PyStr} {i j : Nat}
    (h : counterName b e i = counterName b e j) : i = j := by
  unfold counterName at h
  obtain ⟨h1, -⟩ := List.append_inj' h rfl
  obtain ⟨-, h2⟩ := List.append_inj h1 rfl
  have h3 := (List.cons.inj h2).2
  exact nat_repr_injective (String.ext h3)

theorem exists_free_counter (existing : List PyStr) (b e : PyStr) :
    ∃ k, 1 ≤ k ∧ k ≤ existing.length + 1 ∧
      counterName b e k ∉ existing := by
  by_contra hall
  push_neg at hall
  have hnames : ((List.range (existing.length + 1)).map
      (fun i => counterName b e (i + 1))).Nodup := by
    refine List.Nodup.map ?_ (List.nodup_range _)
    intro i j hij
    have := counterName_injective hij
    omega
  have hsub : ((List.range (existing.length + 1)).map
      (fun i => counterName b e (i + 1))).toFinset ⊆ existing.toFinset := by
    intro x hx
    rw [List.mem_toFinset] at hx ⊢
    obtain ⟨i, hi, rfl⟩ := List.mem_map.mp hx
    have hi' := List.mem_range.mp hi
    exact hall (i + 1) (by omega) (by omega)
  have hcard1 : ((List.range (existing.length + 1)).map
      (fun i => counterName b e (i + 1))).toFinset.card
      = existing.length + 1 := by
    rw [List.toFinset_card_of_nodup hnames]
    simp
  have hcard3 := Finset.card_le_card hsub
  have hcard4 := existing.toFinset_card_le
  omega

theorem resolveDupLoop_spec (existing : List PyStr) (b e : PyStr) :
    ∀ (fuel counter : Nat),
      (∃ k, counter ≤ k ∧ k < counter + fuel ∧
        counterName b e k ∉ existing) →
      ∃ N, counter ≤ N ∧
        resolveDupLoop existing b e counter fuel = counterName b e N ∧
        counterName b e N ∉ existing ∧
        ∀ m, counter ≤ m → m < N → counterName b e m ∈ existing := by
  intro fuel
  induction fuel with
  | zero =>
    intro counter hex
    obtain ⟨k, h1, h2, _⟩ := hex
    omega
  | succ f ih =>
    intro counter hex
    obtain ⟨k, h1, h2, h3⟩ := hex
    by_cases hmem : counterName b e counter ∈ existing
    · have hk : counter + 1 ≤ k := by
        rcases Nat.lt_or_ge counter k with hlt | hge
        · omega
        · have hkc : k = counter := by omega
          rw [hkc] at h3
          exact absurd hmem h3
      obtain ⟨N, hN1, hN2, hN3, hN4⟩ :=
        ih (counter + 1) ⟨k, hk, by omega, h3⟩
      refine ⟨N, by omega, ?_, hN3, ?_⟩
      · simp only [resolveDupLoop]
        rw [if_pos hmem]
        exact hN2
      · intro m hm1 hm2
        by_cases hmc : m = counter
        · rw [hmc]; exact hmem
        · exact hN4 m (by omega) hm2
    · refine ⟨counter, Nat.le_refl _, ?_, hmem, ?_⟩
      · simp only [resolveDupLoop]
        rw [if_neg hmem]
      · intro m hm1 hm2
        omega

/-- C10: `process_audio_file` never overwrites: the chosen destination
name is never among the existing names; and when `filename` itself already
exists, the chosen name is `base_N ++ ext` (with `base, ext` from
`os.path.splitext`) for the smallest positive `N` whose name is not yet
taken. -/
theorem c10_no_overwrite (existing : List PyStr) (filename : PyStr) :
    process_audio_file_destination existing filename ∉ existing ∧
    (filename ∈ existing →
      ∃ N, 0 < N ∧
        process_audio_file_destination existing filename
          = counterName (py_splitext filename).1 (py_splitext filename).2
              N ∧
        ∀ m, 0 < m → m < N →
          counterName (py_splitext filename).1 (py_splitext filename).2 m
            ∈ existing) := by
  by_cases hmem : filename ∈ existing
  · obtain ⟨k, hk1, hk2, hk3⟩ := exists_free_counter existing
      (py_splitext filename).1 (py_splitext filename).2
    obtain ⟨N, hN1, hN2, hN3, hN4⟩ := resolveDupLoop_spec existing
      (py_splitext filename).1 (py_splitext filename).2
      (existing.length + 1) 1 ⟨k, hk1, by omega, hk3⟩
    have hdest : process_audio_file_destination existing filename
        = resolveDupLoop existing (py_splitext filename).1
            (py_splitext filename).2 1 (existing.length + 1) := by
      unfold process_audio_file_destination
      rw [if_pos hmem]
    constructor
    · rw [hdest, hN2]
      exact hN3
    · intro _
      exact ⟨N, by omega, by rw [hdest, hN2],
        fun m hm1 hm2 => hN4 m (by omega) hm2⟩
  · constructor
    · have hdest : process_audio_file_destination existing filename
          = filename := by
        unfold process_audio_file_destination
        rw [if_neg hmem]
      rw [hdest]
      exact hmem
    · intro h
      exact absurd h hmem

theorem c10_no_overwrite_witness :
    process_audio_file_destination ["song.mp3".data, "song_1.mp3".data]
        "song.mp3".data ∉ ["song.mp3".data, "song_1.mp3".data] ∧
    (∃ N, 0 < N ∧
      process_audio_file_destination ["song.mp3".data, "song_1.mp3".data]
          "song.mp3".data
        = counterName (py_splitext "song.mp3".data).1
            (py_splitext "song.mp3".data).2 N ∧
      ∀ m, 0 < m → m < N →
        counterName (py_splitext "song.mp3".data).1
          (py_splitext "song.mp3".data).2 m
          ∈ ["song.mp3".data, "song_1.mp3".data]) ∧
    process_audio_file_destination ["song.mp3".data, "song_1.mp3".data]
        "song.mp3".data = "song_2.mp3".data :=
  ⟨(c10_no_overwrite ["song.mp3".data, "song_1.mp3".data]
      "song.mp3".data).1,
   (c10_no_overwrite ["song.mp3".data, "song_1.mp3".data]
      "song.mp3".data).2 (by decide),
   by decide⟩
